import Mathlib

/-!
Verification development for the playlist decoder engine (`src/groove/playlist.c`).

The shallow embedding below translates the data structures and operations of
`playlist.c` into executable Lean definitions:

* pointers to playlist items become `ItemId := Nat` identities; the item heap of
  a playlist is an association list `Heap := List (ItemId × PItem)` with
  first-occurrence lookup (`hget`), in-place update (`hset`) and free
  (`herase`), mirroring pointer dereference, field write and `av_free`;
* C `double` values (gain, volume, audio clock) are modelled as `Rat`, which is
  exact for the constants (0.0, 1.0) these programs compare against;
* machine integer byte counters are modelled as `Int` (no overflow is relevant
  to the claims);
* a sink's audio queue is modelled by `SinkQ`: the byte counter `audioq_size`,
  the queued elements, and a counter of `groove_buffer_unref` calls performed
  by the cleanup callback;
* the end-of-queue sentinel (`end_of_q_sentinel`, a distinguished NULL
  `GrooveBuffer *`) becomes the dedicated constructor `QBuf.sentinel`.
-/

set_option maxHeartbeats 1000000

namespace Groove

/-- Pointer identity of a `GroovePlaylistItem`. -/
abbrev ItemId := Nat

/-- An element of a sink's audio queue: either the global `end_of_q_sentinel`
(in the source a distinguished NULL `GrooveBuffer *`) or a real buffer,
carrying the `item` back-reference and the byte `size` used by the queue
callbacks. -/
inductive QBuf where
  | sentinel : QBuf
  | buf (item : ItemId) (size : Int) : QBuf
deriving DecidableEq, Repr

/-- The queue-related state of one `GrooveSinkPrivate`: the `audioq_size` byte
counter, the contents of `audioq`, and a count of the `groove_buffer_unref`
calls issued by the cleanup callback (so that "unrefs nothing" is statable). -/
structure SinkQ where
  audioq_size : Int
  queue : List QBuf
  unrefs : Nat
deriving DecidableEq, Repr

/-- Translation of `audioq_put` (playlist.c:549): the sentinel returns early;
a real buffer adds its size to `audioq_size`. -/
def audioq_put (s : SinkQ) (b : QBuf) : SinkQ :=
  match b with
  | .sentinel => s
  | .buf _ sz => { s with audioq_size := s.audioq_size + sz }

/-- Translation of `audioq_get` (playlist.c:557): the sentinel returns early;
a real buffer subtracts its size from `audioq_size` (the subsequent
`pthread_cond_signal` has no state effect modelled here). -/
def audioq_get (s : SinkQ) (b : QBuf) : SinkQ :=
  match b with
  | .sentinel => s
  | .buf _ sz => { s with audioq_size := s.audioq_size - sz }

/-- Translation of `audioq_cleanup` (playlist.c:571): the sentinel returns
early; a real buffer subtracts its size and is unref'd once. -/
def audioq_cleanup (s : SinkQ) (b : QBuf) : SinkQ :=
  match b with
  | .sentinel => s
  | .buf _ sz => { s with audioq_size := s.audioq_size - sz, unrefs := s.unrefs + 1 }

/-- Translation of `audioq_purge` (playlist.c:581): false for the sentinel,
otherwise `buffer->item == p->purge_item`. The playlist's `purge_item` field
(a possibly-NULL item pointer) is passed explicitly. -/
def audioq_purge (purge_item : Option ItemId) (b : QBuf) : Bool :=
  match b with
  | .sentinel => false
  | .buf it _ => some it == purge_item

/-- Modelled from the spec: `groove_queue_purge` lives in `queue.c`, which is
not among the sources; spec §4.2 states `purge(pred)` "removes all elements
for which `pred(e)` is true, invoking `on_cleanup` per removed". Here the
predicate is the sink queue's `audioq_purge` and the cleanup callback is
`audioq_cleanup`. -/
def groove_queue_purge (purge_item : Option ItemId) (s : SinkQ) : SinkQ :=
  let removed := s.queue.filter (fun b => audioq_purge purge_item b)
  let s' := removed.foldl audioq_cleanup s
  { s' with queue := s.queue.filter (fun b => !audioq_purge purge_item b) }

/-! ## Volume filter construction (`init_filter_graph`, playlist.c:299-323) -/

/-- Translation of the volume-node construction step of `init_filter_graph`
(playlist.c:303-323): clamp `p->volume` to `[0,1]`, then create a volume
filter only when the clamped value differs from `1.0`; `none` models
`p->volume_ctx = NULL` (no node), `some x` a node with parameter `x`. -/
def volume_filter_param (vol0 : Rat) : Option Rat :=
  let vol := if vol0 > 1 then (1 : Rat) else vol0
  let vol := if vol < 0 then (0 : Rat) else vol
  if vol = 1 then none else some vol

/-- Translation of `p->volume = p->decode_head->gain * playlist->volume`
(decode_thread, playlist.c:622). -/
def effective_volume (gain playlistVolume : Rat) : Rat :=
  gain * playlistVolume

/-- The clamp to `[0.0, 1.0]` named by the spec (and performed by
playlist.c:304-305). -/
def clampVolume (v : Rat) : Rat :=
  if v > 1 then 1 else if v < 0 then 0 else v

/-! ## Allocation order in `add_sink_to_map` (playlist.c:698-705) -/

/-- Pointer identity of a `GrooveSink`; sink format fields follow. -/
structure Sink where
  buffer_sample_count : Nat
  disable_resample : Bool
  sample_rate : Int
  channel_layout : Nat
  sample_fmt : Int
deriving DecidableEq, Repr

/-- The heap cell of a `SinkStack` node; `av_mallocz` zeroes it, so a fresh
cell has `sink = none` (NULL). -/
structure SinkStackCell where
  sink : Option Sink
deriving DecidableEq, Repr

/-- The three ways the opening lines of `add_sink_to_map` can go. -/
inductive PrologueOutcome where
  | fault
  | errReturn
  | continued (cell : SinkStackCell)
deriving DecidableEq, Repr

/-- Translation of the first four statements of `add_sink_to_map`
(playlist.c:701-705), with the allocation result made explicit (`none` models
`av_mallocz` returning NULL). The statements are executed in source order:
first the field write `stack_entry->sink = sink` (a dereference, which faults
on NULL), then the check `if (!stack_entry) return -1`. -/
def add_sink_to_map_prologue (alloc : Option SinkStackCell) (s : Sink) :
    PrologueOutcome :=
  match alloc with
  | none => .fault
  | some c =>
    let c := { c with sink := some s }
    if (some c : Option SinkStackCell).isNone then .errReturn else .continued c

/-! ## Sink map (`SinkMap` / `SinkStack`, playlist.c:643-791) -/

/-- Translation of `sink_formats_equal` (playlist.c:643-654). -/
def sink_formats_equal (a b : Sink) : Bool :=
  if a.buffer_sample_count != b.buffer_sample_count then false
  else if a.disable_resample then b.disable_resample
  else if b.disable_resample then false
  else
    a.sample_rate == b.sample_rate &&
    a.channel_layout == b.channel_layout &&
    a.sample_fmt == b.sample_fmt

/-- One `SinkMap` entry: its non-empty stack of sinks, split as the
`stack_head`'s sink (the "example sink" of the entry) and the rest of the
stack. -/
abbrev Group := Sink × List Sink

/-- The sinks on one map entry's stack, head first. -/
def members (g : Group) : List Sink := g.1 :: g.2

/-- The scan loop of `add_sink_to_map` (playlist.c:707-718): find the first
map entry whose example sink matches, and push the sink onto that entry's
stack; `none` when no entry matches. -/
def tryPush : List Group → Sink → Option (List Group)
  | [], _ => none
  | (ex, t) :: rest, s =>
    if sink_formats_equal ex s then some ((s, ex :: t) :: rest)
    else (tryPush rest s).map (fun m => (ex, t) :: m)

/-- The sink-map-related playlist state: `p->sink_map`, `p->sink_map_count`
and `p->rebuild_filter_graph_flag`. -/
structure SinkMapState where
  sink_map : List Group
  sink_map_count : Int
  rebuild_filter_graph_flag : Bool
deriving DecidableEq, Repr

/-- Translation of `add_sink_to_map` (playlist.c:698-734) on its success path
(the allocation-failure prologue is `add_sink_to_map_prologue`): push onto the
first matching entry's stack, or else prepend a new map entry with a
one-element stack and increment `sink_map_count`. Returns the state and the
`int` result. -/
def add_sink_to_map (st : SinkMapState) (s : Sink) : SinkMapState × Int :=
  match tryPush st.sink_map s with
  | some m => ({ st with sink_map := m }, 0)
  | none =>
    ({ st with sink_map := (s, []) :: st.sink_map,
               sink_map_count := st.sink_map_count + 1 }, 0)

/-- The inner stack walk of `remove_sink_from_map` (playlist.c:666-690) over
the entries after the stack head: remove the first entry holding the given
sink. -/
def removeFromStack : List Sink → Sink → Option (List Sink)
  | [], _ => none
  | x :: rest, s =>
    if x = s then some rest
    else (removeFromStack rest s).map (fun t => x :: t)

/-- Removal of a sink from one map entry (playlist.c:666-690): `some none`
when the stack held only this sink (the map item is deleted), `some (some g')`
when the sink was unlinked and the entry remains, `none` when the sink is not
on this entry's stack. -/
def removeFromGroup (g : Group) (s : Sink) : Option (Option Group) :=
  if g.1 = s then
    match g.2 with
    | [] => some none
    | h :: t => some (some (h, t))
  else
    (removeFromStack g.2 s).map (fun t => some (g.1, t))

/-- The outer map walk of `remove_sink_from_map` (playlist.c:660-693); the
Bool records whether a map entry was deleted. -/
def removeFromMap : List Group → Sink → Option (List Group × Bool)
  | [], _ => none
  | g :: rest, s =>
    match removeFromGroup g s with
    | some none => some (rest, true)
    | some (some g') => some (g' :: rest, false)
    | none => (removeFromMap rest s).map (fun p => (g :: p.1, p.2))

/-- Translation of `remove_sink_from_map` (playlist.c:656-696): returns -1
when the sink is not found, else 0, with `sink_map_count` decremented when a
map entry was deleted. -/
def remove_sink_from_map (st : SinkMapState) (s : Sink) : SinkMapState × Int :=
  match removeFromMap st.sink_map s with
  | none => (st, -1)
  | some (m, deleted) =>
    ({ st with sink_map := m,
               sink_map_count := st.sink_map_count - (if deleted then 1 else 0) }, 0)

/-- Translation of `groove_sink_attach` (playlist.c:760-791) restricted to its
effect on the sink-map state: besides `add_sink_to_map` it only computes
cached format numbers, signals `sink_drain_cond` and resets the sink's queue,
none of which touches `sink_map`, `sink_map_count` or the rebuild flag. -/
def groove_sink_attach (st : SinkMapState) (s : Sink) : SinkMapState × Int :=
  add_sink_to_map st s

/-- Translation of `groove_sink_detach` (playlist.c:736-758) restricted to its
effect on the sink-map state: besides `remove_sink_from_map` it only aborts
and flushes the sink's own queue and clears `sink->playlist`. -/
def groove_sink_detach (st : SinkMapState) (s : Sink) : SinkMapState × Int :=
  remove_sink_from_map st s

/-- The grouping criterion named by the claim, as a proposition: equal
`buffer_sample_count`, and either both sinks disable resampling or neither
does and their `(sample_rate, channel_layout, sample_fmt)` triples are
equal. -/
def sfePred (a b : Sink) : Prop :=
  a.buffer_sample_count = b.buffer_sample_count ∧
  ((a.disable_resample = true ∧ b.disable_resample = true) ∨
   (a.disable_resample = false ∧ b.disable_resample = false ∧
    a.sample_rate = b.sample_rate ∧
    a.channel_layout = b.channel_layout ∧
    a.sample_fmt = b.sample_fmt))

/-- A sink is on some entry's stack of the map. -/
def inMap (m : List Group) (x : Sink) : Prop :=
  ∃ g ∈ m, x ∈ members g

/-- Two sinks are on the same map entry's stack. -/
def sameGroup (m : List Group) (a b : Sink) : Prop :=
  ∃ g ∈ m, a ∈ members g ∧ b ∈ members g

/-- Structural invariant of the sink map maintained by `add_sink_to_map`:
every entry's sinks are pairwise format-equivalent, and sinks on different
entries never are. -/
def GroupsOk (m : List Group) : Prop :=
  (∀ g ∈ m, ∀ x ∈ members g, ∀ y ∈ members g, sfePred x y) ∧
  m.Pairwise (fun g g' => ∀ x ∈ members g, ∀ y ∈ members g', ¬ sfePred x y)

/-- The effect of one `add_sink_to_map` call on the map alone. -/
def addMap (m : List Group) (s : Sink) : List Group :=
  match tryPush m s with
  | some m' => m'
  | none => (s, []) :: m

/-- Attach a list of sinks, in order, to a fresh playlist's sink-map state. -/
def attach_all (ss : List Sink) : SinkMapState :=
  ss.foldl (fun st s => (add_sink_to_map st s).1) ⟨[], 0, false⟩

/-- A concrete sink requesting 44.1kHz stereo s16. -/
def c4_sA : Sink := ⟨0, false, 44100, 3, 1⟩

/-- A concrete sink requesting 48kHz stereo s16. -/
def c4_sB : Sink := ⟨0, false, 48000, 3, 1⟩

/-! ## Playlist item list (`GroovePlaylistItem` pointer structure) -/

/-- One `GroovePlaylistItem` cell: the `prev`/`next` pointers, the item's
`gain`, and the `audio_clock` of the item's bound file (flattened onto the
item, since each item owns an opaque `GrooveFile`). -/
structure PItem where
  prev : Option ItemId
  next : Option ItemId
  gain : Rat
  clock : Rat
deriving DecidableEq, Repr

/-- The set of live playlist items: an association list from pointer identity
to cell contents. -/
abbrev Heap := List (ItemId × PItem)

/-- Pointer dereference: first entry with the given identity. -/
def hget : Heap → ItemId → Option PItem
  | [], _ => none
  | (j, nd) :: t, i => if i = j then some nd else hget t i

/-- Field write through a pointer: replace the first entry with the given
identity (no-op if absent). -/
def hset : Heap → ItemId → PItem → Heap
  | [], _, _ => []
  | (j, nd) :: t, i, nd' => if i = j then (j, nd') :: t else (j, nd) :: hset t i nd'

/-- `av_free` of an item: drop the first entry with the given identity. -/
def herase : Heap → ItemId → Heap
  | [], _ => []
  | (j, nd) :: t, i => if i = j then t else (j, nd) :: herase t i

/-- The statement `x->next = v` for an item pointer `x`. -/
def setNext (h : Heap) (i : ItemId) (v : Option ItemId) : Heap :=
  match hget h i with
  | none => h
  | some nd => hset h i { nd with next := v }

/-- The statement `x->prev = v` for an item pointer `x`. -/
def setPrev (h : Heap) (i : ItemId) (v : Option ItemId) : Heap :=
  match hget h i with
  | none => h
  | some nd => hset h i { nd with prev := v }

/-- The playlist state relevant to the list-manipulation API: the item heap,
the public `head`/`tail` pointers, the private `decode_head`, the attached
sinks' queue states, and the transient `purge_item`. -/
structure PlaylistState where
  heap : Heap
  head : Option ItemId
  tail : Option ItemId
  decode_head : Option ItemId
  sinks : List SinkQ
  purge_item : Option ItemId
deriving DecidableEq, Repr

/-- Translation of `groove_playlist_insert` (playlist.c:932-977). `newId` is
the identity of the freshly allocated item (`av_mallocz` zeroes it, so
`prev = none` before `item->next = next` and `item->gain = gain` are
assigned); `file` is opaque and its `audio_clock` starts at 0. In the
`next != NULL, next->prev == NULL` branch the source sets `playlist->head`
but does not write `next->prev`. The seek-request fields of the file touched
in the empty-playlist branch are outside this model; that branch also sets
`decode_head` as in the source. -/
def groove_playlist_insert (st : PlaylistState) (newId : ItemId) (gain : Rat)
    (next : Option ItemId) : PlaylistState :=
  let item : PItem := { prev := none, next := next, gain := gain, clock := 0 }
  match next with
  | some nid =>
    match hget st.heap nid with
    | none => st
    | some nnd =>
      match nnd.prev with
      | some pid =>
        let item := { item with prev := some pid }
        let heap := st.heap ++ [(newId, item)]
        let heap := setNext heap pid (some newId)
        let heap := setPrev heap nid (some newId)
        { st with heap := heap }
      | none =>
        { st with heap := st.heap ++ [(newId, item)], head := some newId }
  | none =>
    match st.head with
    | none =>
      { st with heap := st.heap ++ [(newId, item)],
                head := some newId, tail := some newId,
                decode_head := some newId }
    | some _ =>
      match st.tail with
      | none => st
      | some tid =>
        let item := { item with prev := some tid }
        let heap := setNext (st.heap ++ [(newId, item)]) tid (some newId)
        { st with heap := heap, tail := some newId }

/-- Translation of `groove_playlist_remove` (playlist.c:994-1026): advance
`decode_head` past the removed item, unsplice it (updating `head`/`tail` when
it had no `prev`/`next`), set `purge_item`, purge every sink's queue, clear
`purge_item`, and free the item. The purge step passes `some id` explicitly:
it is the value `p->purge_item` holds while `every_sink(playlist, purge_sink)`
runs; the optional per-sink `purge` hook has no effect on this state. -/
def groove_playlist_remove (st : PlaylistState) (id : ItemId) : PlaylistState :=
  match hget st.heap id with
  | none => st
  | some nd =>
    let decode_head' := if st.decode_head = some id then nd.next else st.decode_head
    let hh := match nd.prev with
      | some p => (setNext st.heap p nd.next, st.head)
      | none => (st.heap, nd.next)
    let ht := match nd.next with
      | some q => (setPrev hh.1 q nd.prev, st.tail)
      | none => (hh.1, nd.prev)
    let sinks' := st.sinks.map (fun s => groove_queue_purge (some id) s)
    { heap := herase ht.1 id, head := hh.2, tail := ht.2,
      decode_head := decode_head', sinks := sinks', purge_item := none }

/-- One node's share of the doubly-linked-list invariant: a node with no
`prev` is the head and a node with `prev = p` satisfies `p->next == n`;
symmetrically for `next` and the tail. -/
def nodeOk (head tail : Option ItemId) (h : Heap) (i : ItemId) (nd : PItem) : Bool :=
  (match nd.prev with
   | none => head == some i
   | some p =>
     match hget h p with
     | none => false
     | some pn => pn.next == some i) &&
  (match nd.next with
   | none => tail == some i
   | some q =>
     match hget h q with
     | none => false
     | some qn => qn.prev == some i)

/-- Well-formedness of the playlist's doubly linked list, as stated by the
spec's invariant: consistent `head`/`tail` pointers, and every node satisfies
`nodeOk`. -/
def wf_list (st : PlaylistState) : Bool :=
  (match st.head with
   | none => st.heap.isEmpty
   | some i => (hget st.heap i).isSome) &&
  (match st.tail with
   | none => st.heap.isEmpty
   | some i => (hget st.heap i).isSome) &&
  st.heap.all (fun e => nodeOk st.head st.tail st.heap e.1 e.2)

/-- The `next`-chain of the playlist: `chainB h pv cur l` holds when starting
from the pointer `cur`, whose predecessor is `pv`, the successive `next`
pointers traverse exactly the items of `l` (with correct back-pointers) and
end at NULL. -/
def chainB (h : Heap) (pv cur : Option ItemId) : List ItemId → Bool
  | [] => cur == none
  | n :: rest =>
    cur == some n &&
      (match hget h n with
       | none => false
       | some nd => nd.prev == pv && chainB h (some n) nd.next rest)

/-- Representation predicate for the claims about list traversals: the items
reachable from `head` are exactly `l`, in order, with consistent
back-pointers, and `l` has no duplicates (pointer identities are unique). -/
def ReprL (st : PlaylistState) (l : List ItemId) : Prop :=
  chainB st.heap none st.head l = true ∧ l.Nodup

/-- Translation of the loop of `groove_playlist_clear` (playlist.c:1028-1036):
walk from `head`, saving each node's `next` pointer before removing the node.
The loop terminates because each iteration frees one live item; the `fuel`
argument bounds the iterations by the number of live items. The returned list
records the arguments of the successive `groove_playlist_remove` calls. -/
def clear_loop : Nat → PlaylistState → Option ItemId → PlaylistState × List ItemId
  | _, st, none => (st, [])
  | 0, st, some _ => (st, [])
  | fuel + 1, st, some n =>
    let next := (hget st.heap n).bind (fun nd => nd.next)
    let st' := groove_playlist_remove st n
    let r := clear_loop fuel st' next
    (r.1, n :: r.2)

/-- Translation of `groove_playlist_clear` (playlist.c:1028-1036). -/
def groove_playlist_clear (st : PlaylistState) : PlaylistState × List ItemId :=
  clear_loop st.heap.length st st.head

/-- Modelled from the spec: the reference definition of `clear` in §4.6,
"repeatedly `remove(head)` until empty", against which the source's
`groove_playlist_clear` is compared. -/
def clear_spec_loop : Nat → PlaylistState → PlaylistState × List ItemId
  | 0, st => (st, [])
  | fuel + 1, st =>
    match st.head with
    | none => (st, [])
    | some h =>
      let st' := groove_playlist_remove st h
      let r := clear_spec_loop fuel st'
      (r.1, h :: r.2)

/-- Modelled from the spec: `clear` as "repeatedly `remove(head)` until
empty", with the same iteration bound as `groove_playlist_clear`. -/
def groove_playlist_clear_spec (st : PlaylistState) : PlaylistState × List ItemId :=
  clear_spec_loop st.heap.length st

/-- Translation of `groove_playlist_position` (playlist.c:1061-1076). The two
out-pointers are modelled as `Option`s carrying their prior contents (`none`
models passing NULL); the result pair carries their contents on return. When
`decode_head` is non-null, `*seconds` receives the decode head's file's
`audio_clock` (the `clock` field of the item); an unreachable dangling
`decode_head` leaves `*seconds` unchanged. -/
def groove_playlist_position (st : PlaylistState)
    (item0 : Option (Option ItemId)) (seconds0 : Option Rat) :
    Option (Option ItemId) × Option Rat :=
  let itemOut := match item0 with
    | none => none
    | some _ => some st.decode_head
  let secondsOut := match seconds0 with
    | none => none
    | some s0 =>
      match st.decode_head with
      | none => some s0
      | some id =>
        match hget st.heap id with
        | none => some s0
        | some nd => some nd.clock
  (itemOut, secondsOut)

/-! ## Decode worker control flow (`decode_thread`, playlist.c:594-641) -/

/-- The decode-loop-relevant playlist state: the chain of items from
`decode_head` onwards (`decode_head` is its first element; the empty list
models `decode_head == NULL`) and the `sent_end_of_q` flag. -/
structure DecodeState where
  chain : List ItemId
  sent_end_of_q : Bool
deriving DecidableEq, Repr

/-- The decode-loop state established by `groove_playlist_create`
(playlist.c:814-867): `decode_head` is NULL and `sent_end_of_q` is set to 1
(playlist.c:827-829) before the decode thread starts. -/
def playlist_create_decode_state : DecodeState :=
  { chain := [], sent_end_of_q := true }

/-- One iteration of the `decode_thread` while-loop body (playlist.c:598-638)
with its environment abstracted: `allFull` is the result of
`every_sink_full`, `endOfItem` tells whether `decode_one_frame` returned a
negative value (end of the current item). The Bool result records whether
this iteration ran `every_sink_signal_end`, i.e. enqueued the end-of-queue
sentinel into every sink queue. -/
def decode_iter (s : DecodeState) (allFull endOfItem : Bool) :
    DecodeState × Bool :=
  match s.chain with
  | [] =>
    if !s.sent_end_of_q then ({ s with sent_end_of_q := true }, true)
    else (s, false)
  | _ :: rest =>
    let s := { s with sent_end_of_q := false }
    if allFull then (s, false)
    else if endOfItem then ({ s with chain := rest }, false)
    else (s, false)

/-- An event interleaved with worker iterations: one worker iteration, or an
API call (`insert` into an empty playlist, `seek`, `remove` of the decode
head) that replaces the decode-head chain under the decode-head mutex — none
of which touches `sent_end_of_q`. -/
inductive DAct where
  | iter (allFull endOfItem : Bool)
  | setChain (c : List ItemId)
deriving DecidableEq, Repr

/-- One step of the interleaved system, with its sentinel-emission event. -/
def dstep (s : DecodeState) : DAct → DecodeState × Bool
  | .iter af eoi => decode_iter s af eoi
  | .setChain c => ({ s with chain := c }, false)

/-- The state after a sequence of events. -/
def drun (s : DecodeState) (acts : List DAct) : DecodeState :=
  acts.foldl (fun s a => (dstep s a).1) s

/-- A concrete event history: insert an item, decode it to its end. -/
def c7_acts1 : List DAct := [DAct.setChain [1], DAct.iter false true]

/-- A concrete worker iteration observing the drained playlist. -/
def c7_a1 : DAct := DAct.iter false false

/-- A second concrete history: insert another item, decode it to its end. -/
def c7_acts2 : List DAct := [DAct.setChain [2], DAct.iter false true]

/-- A second worker iteration observing the drained playlist. -/
def c7_a2 : DAct := DAct.iter false false

/-- A one-item playlist `[0]`, well formed, used as the concrete input on
which inserting before the head is evaluated. -/
def c2_st0 : PlaylistState :=
  { heap := [(0, { prev := none, next := none, gain := 1, clock := 0 })],
    head := some 0, tail := some 0, decode_head := some 0,
    sinks := [], purge_item := none }

/-- A one-item playlist whose sink queue holds buffers of items 0 and 1 and
the sentinel, used as the concrete input for the purge claim. -/
def c1_st : PlaylistState :=
  { heap := [(0, { prev := none, next := none, gain := 1, clock := 0 })],
    head := some 0, tail := some 0, decode_head := some 0,
    sinks := [⟨6, [QBuf.buf 0 4, QBuf.sentinel, QBuf.buf 1 2], 0⟩],
    purge_item := none }

/-- The empty playlist, used as the concrete input for the position claim. -/
def c10_st : PlaylistState :=
  { heap := [], head := none, tail := none, decode_head := none,
    sinks := [], purge_item := none }

/-- A well-formed two-item playlist `[0, 1]`, used as the concrete input for
the clear-equivalence claim. -/
def c9_st : PlaylistState :=
  { heap := [(0, { prev := none, next := some 1, gain := 1, clock := 0 }),
             (1, { prev := some 0, next := none, gain := 1, clock := 0 })],
    head := some 0, tail := some 1, decode_head := some 0,
    sinks := [⟨4, [QBuf.buf 0 4], 0⟩], purge_item := none }

end Groove

namespace Groove

/-- C8: in `add_sink_to_map` the write `stack_entry->sink = sink` precedes the
null check, so when the allocation fails the execution faults on a NULL
dereference before reaching the check, and the `return -1` branch is not
reachable in any execution. -/
theorem C8_null_check_unreachable :
    (∀ s : Sink, add_sink_to_map_prologue none s = PrologueOutcome.fault) ∧
    (∀ (alloc : Option SinkStackCell) (s : Sink),
      add_sink_to_map_prologue alloc s ≠ PrologueOutcome.errReturn) := by
  constructor
  · intro s; rfl
  · intro alloc s
    cases alloc with
    | none => simp [add_sink_to_map_prologue]
    | some c => simp [add_sink_to_map_prologue]

/-- C6: the end-of-queue sentinel bypasses all four queue callbacks:
`audioq_put` and `audioq_get` leave the sink state (in particular
`audioq_size`) unchanged, `audioq_cleanup` changes neither `audioq_size` nor
the unref count, `audioq_purge` returns false on it, and consequently a
`groove_queue_purge` never removes a sentinel from the queue. -/
theorem C6_sentinel_bypasses_callbacks :
    ∀ (s : SinkQ) (purge_item : Option ItemId),
      audioq_put s QBuf.sentinel = s ∧
      audioq_get s QBuf.sentinel = s ∧
      audioq_cleanup s QBuf.sentinel = s ∧
      audioq_purge purge_item QBuf.sentinel = false ∧
      (QBuf.sentinel ∈ s.queue →
        QBuf.sentinel ∈ (groove_queue_purge purge_item s).queue) := by
  intro s purge_item
  refine ⟨rfl, rfl, rfl, rfl, fun h => ?_⟩
  simp [groove_queue_purge, List.mem_filter, audioq_purge, h]

/-- Witness for C6 at a concrete sink state whose queue holds the sentinel. -/
theorem C6_sentinel_bypasses_callbacks_witness :
    QBuf.sentinel ∈
      (groove_queue_purge (some 3)
        ⟨10, [QBuf.buf 3 4, QBuf.sentinel], 0⟩).queue :=
  ((C6_sentinel_bypasses_callbacks ⟨10, [QBuf.buf 3 4, QBuf.sentinel], 0⟩
      (some 3)).2.2.2.2) (by decide)

/-- C5 counterexample: at effective volume `2.0` (gain 2, playlist volume 1)
the code clamps to `1.0` first and therefore creates no volume node, although
`2.0 ≠ 1.0`; so "a volume node iff the effective volume is not 1.0" is false
as stated. -/
theorem C5_volume_counterexample :
    effective_volume 2 1 ≠ 1 ∧
    volume_filter_param (effective_volume 2 1) = none := by
  constructor
  · norm_num [effective_volume]
  · norm_num [effective_volume, volume_filter_param]

/-- C5 amended: the rebuilt graph contains a volume node iff the effective
volume clamped to `[0.0, 1.0]` differs from `1.0` — equivalently, iff the
effective volume is below `1.0` — and the node's parameter is the clamped
value. -/
theorem C5_clamped_volume_node (gain playlistVolume : Rat) :
    volume_filter_param (effective_volume gain playlistVolume) =
      (if clampVolume (effective_volume gain playlistVolume) = 1 then none
       else some (clampVolume (effective_volume gain playlistVolume))) ∧
    ((volume_filter_param (effective_volume gain playlistVolume)).isSome ↔
      effective_volume gain playlistVolume < 1) := by
  constructor
  · simp only [volume_filter_param, clampVolume]
    split_ifs <;> simp_all <;> linarith
  · have h := lt_trichotomy (effective_volume gain playlistVolume) 1
    simp only [volume_filter_param]
    rcases h with h | h | h <;> split_ifs <;> simp_all <;> linarith

/-- C2: the claim that `groove_playlist_insert` preserves well-formedness for
every choice of `next` fails when `next` is the current head: on the
well-formed one-item playlist `[0]`, inserting a new item `1` before the head
leaves `0`'s `prev` pointer NULL (the source sets `playlist->head` without
writing `next->prev`), so the result is not a well-formed doubly linked
list. -/
theorem C2_insert_before_head_breaks_invariant :
    wf_list c2_st0 = true ∧
    wf_list (groove_playlist_insert c2_st0 1 1 (some 0)) = false := by
  decide

/-- C1: for a playlist item that is live in the heap, the purge predicate
`audioq_purge` (with `purge_item` set to that item) holds exactly for the
buffers whose `item` field is the removed item, and after
`groove_playlist_remove` returns, no sink's queue contains any buffer whose
`item` field equals the removed item. -/
theorem C1_remove_purges_item (st : PlaylistState) (id : ItemId)
    (h : (hget st.heap id).isSome) :
    (∀ b, audioq_purge (some id) b = true ↔ ∃ sz, b = QBuf.buf id sz) ∧
    (∀ s ∈ (groove_playlist_remove st id).sinks,
      ∀ sz, QBuf.buf id sz ∉ s.queue) := by
  obtain ⟨nd, hnd⟩ := Option.isSome_iff_exists.mp h
  constructor
  · intro b
    cases b with
    | sentinel => simp [audioq_purge]
    | buf it sz =>
      simp only [audioq_purge, beq_iff_eq, Option.some.injEq]
      constructor
      · rintro rfl; exact ⟨sz, rfl⟩
      · rintro ⟨sz', h'⟩; cases h'; rfl
  · intro s hs sz hmem
    have hsinks : (groove_playlist_remove st id).sinks =
        st.sinks.map (fun s => groove_queue_purge (some id) s) := by
      simp [groove_playlist_remove, hnd]
    rw [hsinks] at hs
    obtain ⟨s0, _, rfl⟩ := List.mem_map.mp hs
    have hq : (groove_queue_purge (some id) s0).queue =
        s0.queue.filter (fun b => !audioq_purge (some id) b) := rfl
    rw [hq] at hmem
    have := (List.mem_filter.mp hmem).2
    simp [audioq_purge] at this

/-- Witness for C1: removing item 0 from `c1_st` (whose sink queue contains a
buffer of item 0) leaves no buffer of item 0 in any sink queue. -/
theorem C1_remove_purges_item_witness :
    (hget c1_st.heap 0).isSome ∧
    (∀ s ∈ (groove_playlist_remove c1_st 0).sinks,
      ∀ sz, QBuf.buf 0 sz ∉ s.queue) :=
  ⟨by decide, (C1_remove_purges_item c1_st 0 (by decide)).2⟩

/-- C10: in `groove_playlist_position` with a non-null `seconds` pointer, when
`decode_head` is NULL the value at `*seconds` is left unchanged and `*item`
(when the pointer is non-null) is set to NULL; `*seconds` is written — with
the decode head's file's audio clock — only when `decode_head` is
non-null. -/
theorem C10_position_seconds (st : PlaylistState) (i0 : Option ItemId) (s0 : Rat) :
    (st.decode_head = none →
      groove_playlist_position st (some i0) (some s0) = (some none, some s0)) ∧
    (∀ id nd, st.decode_head = some id → hget st.heap id = some nd →
      (groove_playlist_position st (some i0) (some s0)).2 = some nd.clock) := by
  constructor
  · intro h
    simp [groove_playlist_position, h]
  · intro id nd h1 h2
    simp [groove_playlist_position, h1, h2]

/-- Bridge between the Bool computed by `sink_formats_equal` and the grouping
criterion as a proposition. -/
theorem sink_formats_equal_iff (a b : Sink) :
    sink_formats_equal a b = true ↔ sfePred a b := by
  by_cases h1 : a.buffer_sample_count = b.buffer_sample_count <;>
    by_cases h2 : a.disable_resample = true <;>
      by_cases h3 : b.disable_resample = true <;>
        simp [sink_formats_equal, sfePred, h1, h2, h3] <;> tauto

/-- The grouping criterion is reflexive. -/
theorem sfePred_refl (a : Sink) : sfePred a a := by
  refine ⟨rfl, ?_⟩
  cases h : a.disable_resample
  · exact Or.inr ⟨rfl, rfl, rfl, rfl, rfl⟩
  · exact Or.inl ⟨rfl, rfl⟩

/-- The grouping criterion is symmetric. -/
theorem sfePred_symm {a b : Sink} (h : sfePred a b) : sfePred b a := by
  obtain ⟨h1, h2⟩ := h
  refine ⟨h1.symm, ?_⟩
  rcases h2 with ⟨x1, x2⟩ | ⟨x1, x2, x3, x4, x5⟩
  · exact Or.inl ⟨x2, x1⟩
  · exact Or.inr ⟨x2, x1, x3.symm, x4.symm, x5.symm⟩

/-- The grouping criterion is transitive. -/
theorem sfePred_trans {a b c : Sink} (h1 : sfePred a b) (h2 : sfePred b c) :
    sfePred a c := by
  obtain ⟨e1, d1⟩ := h1
  obtain ⟨e2, d2⟩ := h2
  refine ⟨e1.trans e2, ?_⟩
  rcases d1 with ⟨x1, x2⟩ | ⟨x1, x2, x3, x4, x5⟩
  · rcases d2 with ⟨y1, y2⟩ | ⟨y1, y2, _⟩
    · exact Or.inl ⟨x1, y2⟩
    · rw [x2] at y1; cases y1
  · rcases d2 with ⟨y1, y2⟩ | ⟨y1, y2, y3, y4, y5⟩
    · rw [x2] at y1; cases y1
    · exact Or.inr ⟨x1, y2, x3.trans y3, x4.trans y4, x5.trans y5⟩

/-- Membership in a sink map with one more entry at the front. -/
theorem inMap_cons (g : Group) (m : List Group) (x : Sink) :
    inMap (g :: m) x ↔ x ∈ members g ∨ inMap m x := by
  unfold inMap
  constructor
  · rintro ⟨g', hg', hx⟩
    rcases List.mem_cons.mp hg' with rfl | h
    · exact Or.inl hx
    · exact Or.inr ⟨g', h, hx⟩
  · rintro (hx | ⟨g', hg', hx⟩)
    · exact ⟨g, List.mem_cons_self g m, hx⟩
    · exact ⟨g', List.mem_cons_of_mem _ hg', hx⟩

/-- When the scan of `add_sink_to_map` finds no matching entry, no entry's
example sink matches the new sink. -/
theorem tryPush_none {m : List Group} {s : Sink} (h : tryPush m s = none) :
    ∀ g ∈ m, sink_formats_equal g.1 s = false := by
  induction m with
  | nil => intro g hg; exact absurd hg (List.not_mem_nil g)
  | cons g rest ih =>
    obtain ⟨ex, t⟩ := g
    intro g' hg'
    by_cases hs : sink_formats_equal ex s = true
    · simp [tryPush, hs] at h
    · have hrest : tryPush rest s = none := by
        simpa [tryPush, hs] using h
      rcases List.mem_cons.mp hg' with rfl | hmem
      · exact Bool.eq_false_iff.mpr hs
      · exact ih hrest g' hmem

/-- When the scan of `add_sink_to_map` pushes the new sink onto a stack, the
sinks present in the map are exactly the new sink plus the old members. -/
theorem tryPush_some_members {m m' : List Group} {s : Sink}
    (h : tryPush m s = some m') :
    ∀ x, inMap m' x ↔ (x = s ∨ inMap m x) := by
  induction m generalizing m' with
  | nil => simp [tryPush] at h
  | cons g rest ih =>
    obtain ⟨ex, t⟩ := g
    intro x
    by_cases hs : sink_formats_equal ex s = true
    · have hm' : m' = (s, ex :: t) :: rest := by
        have := h
        simp [tryPush, hs] at this
        exact this.symm
      subst hm'
      rw [inMap_cons, inMap_cons]
      simp only [members, List.mem_cons]
      tauto
    · have h' : ∃ r', tryPush rest s = some r' ∧ (ex, t) :: r' = m' := by
        have := h
        simp only [tryPush, hs, if_false, Bool.false_eq_true] at this
        rw [Option.map_eq_some'] at this
        exact this
      obtain ⟨r', hr', rfl⟩ := h'
      rw [inMap_cons, inMap_cons, ih hr' x]
      tauto

/-- The scan of `add_sink_to_map` preserves the sink-map invariant when it
pushes onto an existing entry. -/
theorem tryPush_groupsOk {m m' : List Group} {s : Sink}
    (hOk : GroupsOk m) (h : tryPush m s = some m') : GroupsOk m' := by
  induction m generalizing m' with
  | nil => simp [tryPush] at h
  | cons g rest ih =>
    obtain ⟨ex, t⟩ := g
    obtain ⟨hW, hP⟩ := hOk
    rw [List.pairwise_cons] at hP
    obtain ⟨hPhead, hPrest⟩ := hP
    have hWg : ∀ x ∈ members (ex, t), ∀ y ∈ members (ex, t), sfePred x y :=
      hW (ex, t) (List.mem_cons_self _ _)
    have hexmem : ex ∈ members (ex, t) := List.mem_cons_self _ _
    by_cases hs : sink_formats_equal ex s = true
    · have hes : sfePred ex s := (sink_formats_equal_iff ex s).mp hs
      have hm' : m' = (s, ex :: t) :: rest := by
        have := h
        simp [tryPush, hs] at this
        exact this.symm
      subst hm'
      have hnew : ∀ x ∈ members (ex, t), sfePred s x := fun x hx =>
        sfePred_trans (sfePred_symm hes) (hWg ex hexmem x hx)
      constructor
      · intro g hg x hx y hy
        rcases List.mem_cons.mp hg with rfl | hg'
        · have hx' : x = s ∨ x ∈ members (ex, t) := List.mem_cons.mp hx
          have hy' : y = s ∨ y ∈ members (ex, t) := List.mem_cons.mp hy
          rcases hx' with hxs | hx' <;> rcases hy' with hys | hy'
          · rw [hxs, hys]; exact sfePred_refl s
          · rw [hxs]; exact hnew y hy'
          · rw [hys]; exact sfePred_symm (hnew x hx')
          · exact hWg x hx' y hy'
        · exact hW g (List.mem_cons_of_mem _ hg') x hx y hy
      · rw [List.pairwise_cons]
        refine ⟨?_, hPrest⟩
        intro g' hg' x hx y hy hxy
        have hx' : x = s ∨ x ∈ members (ex, t) := List.mem_cons.mp hx
        rcases hx' with hxs | hx'
        · have hxy' : sfePred s y := by rw [← hxs]; exact hxy
          exact hPhead g' hg' ex hexmem y hy (sfePred_trans hes hxy')
        · exact hPhead g' hg' x hx' y hy hxy
    · have h' : ∃ r', tryPush rest s = some r' ∧ (ex, t) :: r' = m' := by
        have := h
        simp only [tryPush, hs, if_false, Bool.false_eq_true] at this
        rw [Option.map_eq_some'] at this
        exact this
      obtain ⟨r', hr', rfl⟩ := h'
      have hOkRest : GroupsOk rest :=
        ⟨fun g' hg' => hW g' (List.mem_cons_of_mem _ hg'), hPrest⟩
      have hOkR' : GroupsOk r' := ih hOkRest hr'
      constructor
      · intro g hg x hx y hy
        rcases List.mem_cons.mp hg with rfl | hg'
        · exact hWg x hx y hy
        · exact hOkR'.1 g hg' x hx y hy
      · rw [List.pairwise_cons]
        refine ⟨?_, hOkR'.2⟩
        intro g' hg' x hx y hy hxy
        have hy' : y = s ∨ inMap rest y :=
          (tryPush_some_members hr' y).mp ⟨g', hg', hy⟩
        rcases hy' with hys | ⟨g3, hg3, hy3⟩
        · have hxy' : sfePred x s := by rw [← hys]; exact hxy
          have hexs := sfePred_trans (hWg ex hexmem x hx) hxy'
          rw [← sink_formats_equal_iff] at hexs
          rw [Bool.eq_false_iff.mpr hs] at hexs
          cases hexs
        · exact hPhead g3 hg3 x hx y hy3 hxy

/-- One `add_sink_to_map` step preserves the sink-map invariant. -/
theorem addMap_groupsOk {m : List Group} {s : Sink} (hOk : GroupsOk m) :
    GroupsOk (addMap m s) := by
  unfold addMap
  cases h : tryPush m s with
  | some m' => exact tryPush_groupsOk hOk h
  | none =>
    obtain ⟨hW, hP⟩ := hOk
    constructor
    · intro g hg x hx y hy
      rcases List.mem_cons.mp hg with rfl | hg'
      · have hx' : x = s := by simpa [members] using hx
        have hy' : y = s := by simpa [members] using hy
        rw [hx', hy']
        exact sfePred_refl s
      · exact hW g hg' x hx y hy
    · rw [List.pairwise_cons]
      refine ⟨?_, hP⟩
      intro g' hg' x hx y hy hxy
      have hx' : x = s := by simpa [members] using hx
      have h1 : sink_formats_equal g'.1 s = false := tryPush_none h g' hg'
      have h2 : sfePred g'.1 y := hW g' hg' g'.1 (List.mem_cons_self _ _) y hy
      have hxy' : sfePred s y := by rw [← hx']; exact hxy
      have h3 := sfePred_trans h2 (sfePred_symm hxy')
      rw [← sink_formats_equal_iff, h1] at h3
      cases h3

/-- One `add_sink_to_map` step adds exactly the given sink to the map's
members. -/
theorem addMap_members {m : List Group} {s : Sink} :
    ∀ x, inMap (addMap m s) x ↔ (x = s ∨ inMap m x) := by
  unfold addMap
  cases h : tryPush m s with
  | some m' => exact tryPush_some_members h
  | none =>
    intro x
    rw [inMap_cons]
    simp [members]

/-- Attaching a list of sinks preserves the sink-map invariant. -/
theorem foldl_addMap_groupsOk (ss : List Sink) {m : List Group}
    (hOk : GroupsOk m) : GroupsOk (ss.foldl addMap m) := by
  induction ss generalizing m with
  | nil => exact hOk
  | cons s ss ih => exact ih (addMap_groupsOk hOk)

/-- The members after attaching a list of sinks are those sinks plus the
prior members. -/
theorem foldl_addMap_members (ss : List Sink) (m : List Group) (x : Sink) :
    inMap (ss.foldl addMap m) x ↔ (x ∈ ss ∨ inMap m x) := by
  induction ss generalizing m with
  | nil => simp
  | cons s ss ih =>
    rw [List.foldl_cons, ih, addMap_members x]
    simp only [List.mem_cons]
    tauto

/-- The sink map built by `attach_all` is the fold of the per-call map
effect. -/
theorem attach_all_sink_map (ss : List Sink) :
    (attach_all ss).sink_map = ss.foldl addMap [] := by
  have key : ∀ (ss : List Sink) (st : SinkMapState),
      (ss.foldl (fun st s => (add_sink_to_map st s).1) st).sink_map =
        ss.foldl addMap st.sink_map := by
    intro ss
    induction ss with
    | nil => intro st; rfl
    | cons s ss ih =>
      intro st
      rw [List.foldl_cons, List.foldl_cons, ih]
      congr 1
      unfold add_sink_to_map addMap
      cases tryPush st.sink_map s <;> rfl
  exact key ss _

/-- Under the sink-map invariant, format-equivalent members share an entry. -/
theorem sameGroup_of_pred :
    ∀ {m : List Group} {a b : Sink}, GroupsOk m → inMap m a → inMap m b →
      sfePred a b → sameGroup m a b := by
  intro m
  induction m with
  | nil =>
    intro a b _ ha _ _
    rcases ha with ⟨g, hg, _⟩
    exact absurd hg (List.not_mem_nil g)
  | cons g rest ih =>
    intro a b hOk ha hb hab
    obtain ⟨hW, hP⟩ := hOk
    rw [List.pairwise_cons] at hP
    obtain ⟨hPhead, hPrest⟩ := hP
    rw [inMap_cons] at ha hb
    rcases ha with hag | har
    · rcases hb with hbg | hbr
      · exact ⟨g, List.mem_cons_self _ _, hag, hbg⟩
      · rcases hbr with ⟨g', hg', hbg'⟩
        exact absurd hab (hPhead g' hg' a hag b hbg')
    · rcases hb with hbg | hbr
      · rcases har with ⟨g', hg', hag'⟩
        exact absurd (sfePred_symm hab) (hPhead g' hg' b hbg a hag')
      · have hrest : sameGroup rest a b :=
          ih ⟨fun g' hg' => hW g' (List.mem_cons_of_mem _ hg'), hPrest⟩
            har hbr hab
        rcases hrest with ⟨g', hg', h1, h2⟩
        exact ⟨g', List.mem_cons_of_mem _ hg', h1, h2⟩

/-- C4: for sinks attached by `add_sink_to_map`, two sinks share a `SinkMap`
group iff their `buffer_sample_count`s are equal and either both disable
resampling or neither does and their `(sample_rate, channel_layout,
sample_fmt)` triples are exactly equal; and `sink_formats_equal` computes
exactly this predicate. -/
theorem C4_same_group_iff_formats_equal (ss : List Sink) (a b : Sink)
    (ha : a ∈ ss) (hb : b ∈ ss) :
    (sink_formats_equal a b = true ↔ sfePred a b) ∧
    (sameGroup (attach_all ss).sink_map a b ↔ sfePred a b) := by
  have hnil : GroupsOk ([] : List Group) :=
    ⟨fun g hg => absurd hg (List.not_mem_nil g), List.Pairwise.nil⟩
  have hOk : GroupsOk (ss.foldl addMap []) := foldl_addMap_groupsOk ss hnil
  have hma : inMap (ss.foldl addMap []) a :=
    (foldl_addMap_members ss [] a).mpr (Or.inl ha)
  have hmb : inMap (ss.foldl addMap []) b :=
    (foldl_addMap_members ss [] b).mpr (Or.inl hb)
  refine ⟨sink_formats_equal_iff a b, ?_⟩
  rw [attach_all_sink_map]
  constructor
  · rintro ⟨g, hg, h1, h2⟩
    exact hOk.1 g hg a h1 b h2
  · intro hab
    exact sameGroup_of_pred hOk hma hmb hab

/-- Witness for C4 on two concrete sinks with different sample rates. -/
theorem C4_same_group_iff_formats_equal_witness :
    (sink_formats_equal c4_sA c4_sB = true ↔ sfePred c4_sA c4_sB) ∧
    (sameGroup (attach_all [c4_sA, c4_sB]).sink_map c4_sA c4_sB ↔
      sfePred c4_sA c4_sB) :=
  C4_same_group_iff_formats_equal [c4_sA, c4_sB] c4_sA c4_sB
    (List.mem_cons_self _ _) (by simp)

/-- C3: contrary to the claim, neither a successful `groove_sink_attach` /
`add_sink_to_map` nor a successful `groove_sink_detach` /
`remove_sink_from_map` sets `rebuild_filter_graph_flag`: the flag is
unchanged by both operations on every state (the source never writes 1 to
it), as evaluated here on a successful attach to a fresh playlist. -/
theorem C3_rebuild_flag_not_set :
    ((groove_sink_attach ⟨[], 0, false⟩ c4_sA).2 = 0 ∧
     (groove_sink_attach ⟨[], 0, false⟩ c4_sA).1.rebuild_filter_graph_flag
       = false) ∧
    (∀ (st : SinkMapState) (s : Sink),
      (groove_sink_attach st s).1.rebuild_filter_graph_flag =
        st.rebuild_filter_graph_flag ∧
      (groove_sink_detach st s).1.rebuild_filter_graph_flag =
        st.rebuild_filter_graph_flag) := by
  constructor
  · exact ⟨rfl, rfl⟩
  · intro st s
    constructor
    · unfold groove_sink_attach add_sink_to_map
      cases tryPush st.sink_map s <;> rfl
    · unfold groove_sink_detach remove_sink_from_map
      cases h : removeFromMap st.sink_map s with
      | none => rfl
      | some p =>
        obtain ⟨mm, dd⟩ := p
        rfl

/-- Witness for C10: on the empty playlist (whose `decode_head` is NULL),
position with prior `*seconds = 7` returns `*item = NULL` and `*seconds`
still 7. -/
theorem C10_position_seconds_witness :
    groove_playlist_position c10_st (some (some 9)) (some 7) = (some none, some 7) :=
  (C10_position_seconds c10_st (some 9) 7).1 rfl

/-- Running an event history in two pieces. -/
theorem drun_append (s : DecodeState) (acts1 acts2 : List DAct) :
    drun s (acts1 ++ acts2) = drun (drun s acts1) acts2 := by
  simp [drun, List.foldl_append]

/-- A worker iteration emits the sentinel exactly when it observes
`decode_head == NULL` with `sent_end_of_q` clear. -/
theorem decode_iter_emits_iff (s : DecodeState) (af eoi : Bool) :
    (decode_iter s af eoi).2 = true ↔
      (s.chain = [] ∧ s.sent_end_of_q = false) := by
  cases hc : s.chain with
  | nil =>
    cases hs : s.sent_end_of_q <;> simp [decode_iter, hc, hs]
  | cons n rest =>
    simp only [decode_iter, hc]
    split_ifs <;> simp

/-- After an iteration that emitted the sentinel, `sent_end_of_q` is set. -/
theorem decode_iter_emit_sets_flag (s : DecodeState) (af eoi : Bool)
    (h : (decode_iter s af eoi).2 = true) :
    (decode_iter s af eoi).1.sent_end_of_q = true := by
  obtain ⟨hc, hs⟩ := (decode_iter_emits_iff s af eoi).mp h
  simp [decode_iter, hc, hs]

/-- No event clears `sent_end_of_q` except an iteration that observed a
non-NULL `decode_head`; consequently, starting from any state with
`sent_end_of_q` set, an event that emits the sentinel is preceded (within the
same history) by a point where the decode-head chain was non-empty. -/
theorem sentinel_needs_nonempty_chain :
    ∀ (acts : List DAct) (a : DAct) (s : DecodeState),
      s.sent_end_of_q = true →
      (dstep (drun s acts) a).2 = true →
      ∃ k ≤ acts.length, (drun s (acts.take k)).chain ≠ [] := by
  intro acts
  induction acts with
  | nil =>
    intro a s hs hemit
    exfalso
    cases a with
    | iter af eoi =>
      have h := (decode_iter_emits_iff (drun s []) af eoi).mp hemit
      have : s.sent_end_of_q = false := h.2
      rw [hs] at this
      cases this
    | setChain c => simp [dstep] at hemit
  | cons b rest ih =>
    intro a s hs hemit
    by_cases hsent : (dstep s b).1.sent_end_of_q = true
    · obtain ⟨k, hk, hne⟩ := ih a (dstep s b).1 hsent hemit
      refine ⟨k + 1, by simpa using Nat.succ_le_succ hk, ?_⟩
      simpa [drun] using hne
    · refine ⟨0, Nat.zero_le _, ?_⟩
      intro hc
      apply hsent
      have hc' : s.chain = [] := hc
      cases b with
      | iter af eoi => simp [dstep, decode_iter, hc', hs]
      | setChain c => simp [dstep, hs]

/-- C7: `sent_end_of_q` is true immediately after `groove_playlist_create`;
a worker iteration enqueues the sentinel into the sink queues exactly when
`decode_head` is NULL and `sent_end_of_q` is false, and sets `sent_end_of_q`
afterwards; hence in any interleaving of worker iterations and decode-head
updates starting from a freshly created playlist, every sentinel emission —
the first one, and each one following an earlier emission — is preceded by a
state in which `decode_head` was non-NULL. -/
theorem C7_sentinel_once_per_drain :
    playlist_create_decode_state.sent_end_of_q = true ∧
    (∀ (s : DecodeState) (af eoi : Bool),
      (decode_iter s af eoi).2 = true ↔
        (s.chain = [] ∧ s.sent_end_of_q = false)) ∧
    (∀ (s : DecodeState) (af eoi : Bool),
      (decode_iter s af eoi).2 = true →
        (decode_iter s af eoi).1.sent_end_of_q = true) ∧
    (∀ (acts : List DAct) (a : DAct),
      (dstep (drun playlist_create_decode_state acts) a).2 = true →
      ∃ k ≤ acts.length,
        (drun playlist_create_decode_state (acts.take k)).chain ≠ []) ∧
    (∀ (acts1 : List DAct) (a1 : DAct) (acts2 : List DAct) (a2 : DAct),
      (dstep (drun playlist_create_decode_state acts1) a1).2 = true →
      (dstep (drun playlist_create_decode_state (acts1 ++ a1 :: acts2)) a2).2
        = true →
      ∃ k ≤ acts2.length,
        (drun playlist_create_decode_state
          ((acts1 ++ [a1]) ++ acts2.take k)).chain ≠ []) := by
  refine ⟨rfl, decode_iter_emits_iff, decode_iter_emit_sets_flag, ?_, ?_⟩
  · intro acts a hemit
    exact sentinel_needs_nonempty_chain acts a playlist_create_decode_state
      rfl hemit
  · intro acts1 a1 acts2 a2 hemit1 hemit2
    have hs1 : (drun playlist_create_decode_state
        (acts1 ++ [a1])).sent_end_of_q = true := by
      rw [drun_append]
      cases a1 with
      | iter af eoi => exact decode_iter_emit_sets_flag _ af eoi hemit1
      | setChain c => simp [dstep, drun] at hemit1
    have hsplit : acts1 ++ a1 :: acts2 = (acts1 ++ [a1]) ++ acts2 := by
      simp
    rw [hsplit, drun_append] at hemit2
    obtain ⟨k, hk, hne⟩ := sentinel_needs_nonempty_chain acts2 a2
      (drun playlist_create_decode_state (acts1 ++ [a1])) hs1 hemit2
    refine ⟨k, hk, ?_⟩
    rw [drun_append]
    exact hne

/-- Looking up the identity just written by `hset` returns the new cell,
provided the identity is live. -/
theorem hget_hset_self {h : Heap} {i : ItemId} (hs : (hget h i).isSome)
    (nd' : PItem) : hget (hset h i nd') i = some nd' := by
  induction h with
  | nil => simp [hget] at hs
  | cons e t ih =>
    obtain ⟨j, x⟩ := e
    by_cases hij : i = j
    · simp [hget, hset, hij]
    · simp only [hget, hset, hij, if_false] at hs ⊢
      exact ih hs

/-- `hset` does not disturb other identities. -/
theorem hget_hset_ne {h : Heap} {i j : ItemId} {nd' : PItem} (hne : i ≠ j) :
    hget (hset h j nd') i = hget h i := by
  induction h with
  | nil => rfl
  | cons e t ih =>
    obtain ⟨k, x⟩ := e
    by_cases hjk : j = k
    · subst hjk
      simp [hget, hset, hne]
    · by_cases hik : i = k <;> simp [hget, hset, hjk, hik, ih]

/-- `herase` does not disturb other identities. -/
theorem hget_herase_ne {h : Heap} {i e : ItemId} (hne : i ≠ e) :
    hget (herase h e) i = hget h i := by
  induction h with
  | nil => rfl
  | cons p t ih =>
    obtain ⟨k, x⟩ := p
    by_cases hek : e = k
    · subst hek
      simp [hget, herase, hne]
    · by_cases hik : i = k <;> simp [hget, herase, hek, hik, ih]

/-- `setPrev` updates exactly the `prev` field of the addressed cell. -/
theorem hget_setPrev_self {h : Heap} {q : ItemId} {nd : PItem}
    (hq : hget h q = some nd) (v : Option ItemId) :
    hget (setPrev h q v) q = some { nd with prev := v } := by
  unfold setPrev
  rw [hq]
  exact hget_hset_self (by rw [hq]; rfl) _

/-- `setPrev` does not disturb other identities. -/
theorem hget_setPrev_ne {h : Heap} {q i : ItemId} {v : Option ItemId}
    (hne : i ≠ q) : hget (setPrev h q v) i = hget h i := by
  unfold setPrev
  cases hq : hget h q with
  | none => rfl
  | some nd => exact hget_hset_ne hne

/-- The chain predicate only consults the cells of its members. -/
theorem chainB_congr {h h' : Heap} :
    ∀ {l : List ItemId} {pv cur : Option ItemId},
      (∀ m ∈ l, hget h' m = hget h m) →
      chainB h' pv cur l = chainB h pv cur l := by
  intro l
  induction l with
  | nil => intro pv cur _; rfl
  | cons n rest ih =>
    intro pv cur hagree
    simp only [chainB]
    rw [hagree n (List.mem_cons_self _ _)]
    cases hg : hget h n with
    | none => rfl
    | some nd =>
      show (cur == some n &&
          (nd.prev == pv && chainB h' (some n) nd.next rest)) =
        (cur == some n && (nd.prev == pv && chainB h (some n) nd.next rest))
      rw [ih (fun m hm => hagree m (List.mem_cons_of_mem _ hm))]

/-- Every member of a chain is a live item. -/
theorem chainB_mem_isSome {h : Heap} :
    ∀ {l : List ItemId} {pv cur : Option ItemId},
      chainB h pv cur l = true → ∀ m ∈ l, (hget h m).isSome := by
  intro l
  induction l with
  | nil => intro pv cur _ m hm; exact absurd hm (List.not_mem_nil m)
  | cons n rest ih =>
    intro pv cur hc m hm
    simp only [chainB, Bool.and_eq_true] at hc
    obtain ⟨_, hrest⟩ := hc
    cases hg : hget h n with
    | none => rw [hg] at hrest; cases hrest
    | some nd =>
      rw [hg] at hrest
      simp only [Bool.and_eq_true] at hrest
      rcases List.mem_cons.mp hm with rfl | hm'
      · rw [hg]; rfl
      · exact ih hrest.2 m hm'

/-- Live identities are heap keys. -/
theorem hget_isSome_mem {h : Heap} {i : ItemId} (hs : (hget h i).isSome) :
    i ∈ h.map Prod.fst := by
  induction h with
  | nil => simp [hget] at hs
  | cons e t ih =>
    obtain ⟨j, x⟩ := e
    by_cases hij : i = j
    · simp [hij]
    · simp only [hget, hij, if_false] at hs
      simp [ih hs]

/-- Decomposition of a non-empty chain. -/
theorem chainB_cons_elim {h : Heap} {pv cur : Option ItemId} {n : ItemId}
    {rest : List ItemId} (hc : chainB h pv cur (n :: rest) = true) :
    cur = some n ∧ ∃ nd, hget h n = some nd ∧ nd.prev = pv ∧
      chainB h (some n) nd.next rest = true := by
  simp only [chainB, Bool.and_eq_true, beq_iff_eq] at hc
  obtain ⟨hcur, hrest⟩ := hc
  refine ⟨hcur, ?_⟩
  cases hg : hget h n with
  | none => rw [hg] at hrest; cases hrest
  | some nd =>
    rw [hg] at hrest
    simp only [Bool.and_eq_true, beq_iff_eq] at hrest
    exact ⟨nd, rfl, hrest.1, hrest.2⟩

/-- Removing a head node (one with `prev == NULL`): the resulting playlist
state, spelled out. -/
theorem remove_head_state {st : PlaylistState} {n : ItemId} {nd : PItem}
    (hnd : hget st.heap n = some nd) (hprev : nd.prev = none) :
    groove_playlist_remove st n = {
      heap := herase (match nd.next with
                      | some q => setPrev st.heap q none
                      | none => st.heap) n,
      head := nd.next,
      tail := match nd.next with | some _ => st.tail | none => none,
      decode_head := if st.decode_head = some n then nd.next
                     else st.decode_head,
      sinks := st.sinks.map (fun s => groove_queue_purge (some n) s),
      purge_item := none } := by
  simp only [groove_playlist_remove, hnd, hprev]
  cases nd.next with
  | none => rfl
  | some q => rfl

/-- The walk of `groove_playlist_clear` and the spec's repeated
`remove(head)` perform the same removals in the same order and end in the
same state, with the playlist left empty. -/
theorem clear_loops_agree :
    ∀ (l : List ItemId) (st : PlaylistState) (fuel : Nat),
      ReprL st l → l.length ≤ fuel →
      clear_loop fuel st st.head = clear_spec_loop fuel st ∧
      (clear_spec_loop fuel st).2 = l ∧
      (clear_spec_loop fuel st).1.head = none := by
  intro l
  induction l with
  | nil =>
    intro st fuel hrepr _
    have hhead : st.head = none := by
      have h := hrepr.1
      simpa [chainB] using h
    cases fuel with
    | zero => simp [clear_loop, clear_spec_loop, hhead]
    | succ f => simp [clear_loop, clear_spec_loop, hhead]
  | cons n rest ih =>
    intro st fuel hrepr hfuel
    obtain ⟨hchain, hnodup⟩ := hrepr
    obtain ⟨hhead, nd, hnd, hprev, hrest⟩ := chainB_cons_elim hchain
    have hn_notin : n ∉ rest := (List.nodup_cons.mp hnodup).1
    have hnodup_rest : rest.Nodup := (List.nodup_cons.mp hnodup).2
    cases fuel with
    | zero => exact absurd hfuel (by simp)
    | succ f =>
      have hfuel' : rest.length ≤ f := by
        simpa [Nat.succ_le_succ_iff] using hfuel
      have hrec := remove_head_state hnd hprev
      have hrepr' : ReprL (groove_playlist_remove st n) rest := by
        cases rest with
        | nil =>
          have hnx : nd.next = none := by
            simpa [chainB] using hrest
          constructor
          · rw [hrec, hnx]
            rfl
          · exact List.nodup_nil
        | cons r t =>
          obtain ⟨hnx, rnd, hrnd, hrprev, hchain_t⟩ := chainB_cons_elim hrest
          have hrn : r ≠ n := by
            intro he
            exact hn_notin (he ▸ List.mem_cons_self r t)
          have hr_notin_t : r ∉ t := (List.nodup_cons.mp hnodup_rest).1
          have hget_r : hget (groove_playlist_remove st n).heap r =
              some { rnd with prev := none } := by
            rw [hrec, hnx]
            show hget (herase (setPrev st.heap r none) n) r = _
            rw [hget_herase_ne hrn]
            exact hget_setPrev_self hrnd none
          have hagree : ∀ m ∈ t,
              hget (groove_playlist_remove st n).heap m = hget st.heap m := by
            intro m hm
            have hmn : m ≠ n := by
              intro he
              exact hn_notin (he ▸ List.mem_cons_of_mem r hm)
            have hmr : m ≠ r := by
              intro he
              exact hr_notin_t (he ▸ hm)
            rw [hrec, hnx]
            show hget (herase (setPrev st.heap r none) n) m = _
            rw [hget_herase_ne hmn, hget_setPrev_ne hmr]
          constructor
          · have hhead' : (groove_playlist_remove st n).head = some r := by
              rw [hrec, hnx]
            rw [hhead']
            have ht : chainB (groove_playlist_remove st n).heap (some r)
                rnd.next t = true := by
              rw [chainB_congr hagree]
              exact hchain_t
            simp [chainB, hget_r, ht]
          · exact hnodup_rest
      have hhead' : (groove_playlist_remove st n).head = nd.next := by
        rw [hrec]
      obtain ⟨ih1, ih2, ih3⟩ := ih (groove_playlist_remove st n) f hrepr' hfuel'
      have hbind : (hget st.heap n).bind (fun nd => nd.next) = nd.next := by
        rw [hnd]
        rfl
      refine ⟨?_, ?_, ?_⟩
      · rw [hhead]
        show (let next := (hget st.heap n).bind (fun nd => nd.next)
              let st' := groove_playlist_remove st n
              let r := clear_loop f st' next
              (r.1, n :: r.2)) = clear_spec_loop (f + 1) st
        simp only [hbind, ← hhead']
        rw [ih1]
        simp only [clear_spec_loop, hhead]
      · simp only [clear_spec_loop, hhead]
        rw [ih2]
      · simp only [clear_spec_loop, hhead]
        exact ih3

/-- C9: `groove_playlist_clear` (which walks the list saving each node's
`next` pointer before removing it) agrees with the reference definition that
repeatedly removes the current head until the playlist is empty: same final
state, same items removed in the same (playlist) order, and the playlist is
left empty. -/
theorem C9_clear_equiv (st : PlaylistState) (l : List ItemId)
    (h : ReprL st l) :
    groove_playlist_clear st = groove_playlist_clear_spec st ∧
    (groove_playlist_clear_spec st).2 = l ∧
    (groove_playlist_clear_spec st).1.head = none := by
  have hlen : l.length ≤ st.heap.length := by
    have hsub : l ⊆ st.heap.map Prod.fst :=
      fun m hm => hget_isSome_mem (chainB_mem_isSome h.1 m hm)
    have hle := (List.subperm_of_subset h.2 hsub).length_le
    simpa using hle
  exact clear_loops_agree l st st.heap.length h hlen

/-- Witness for C9 on the concrete two-item playlist `[0, 1]`. -/
theorem C9_clear_equiv_witness :
    ReprL c9_st [0, 1] ∧
    ((groove_playlist_clear_spec c9_st).2 = [0, 1] ∧
     (groove_playlist_clear_spec c9_st).1.head = none) :=
  ⟨⟨by decide, by decide⟩, (C9_clear_equiv c9_st [0, 1] ⟨by decide, by decide⟩).2⟩

/-- Witness for C7: insert item 1 and decode it out, observe the sentinel;
insert item 2 and decode it out, observe the sentinel again; between the two
emissions the decode head was non-NULL. -/
theorem C7_sentinel_once_per_drain_witness :
    (dstep (drun playlist_create_decode_state c7_acts1) c7_a1).2 = true ∧
    (dstep (drun playlist_create_decode_state
      (c7_acts1 ++ c7_a1 :: c7_acts2)) c7_a2).2 = true ∧
    ∃ k ≤ c7_acts2.length,
      (drun playlist_create_decode_state
        ((c7_acts1 ++ [c7_a1]) ++ c7_acts2.take k)).chain ≠ [] :=
  ⟨by decide, by decide,
    C7_sentinel_once_per_drain.2.2.2.2 c7_acts1 c7_a1 c7_acts2 c7_a2
      (by decide) (by decide)⟩

end Groove
